import Mathlib

/-!
The program find_inlets: dangle-point (inlet) detection over a flow-line network

A shallow embedding of `src/lib/find_inlets/src/find_inlets.cpp`.

* `double` is a type parameter `R` together with `deq : R → R → Bool`, the C++
  `==` on `double`. The two functions only copy and compare coordinates, so
  nothing else about `double` is needed; `deq` is not assumed reflexive.
* What GDAL/OGR hands to the program is data: a feature carries its geometry
  (absent, or a flattened geometry type with its vertices) and the function
  `OGR_F_GetFieldAsInteger(hFeature, ·)`; a layer carries
  `OGR_FD_GetFieldIndex(hFDefn, ·)` and its features.
* `exit(1)` and a read outside a `malloc`ed vertex buffer are results of type
  `Fault`; the loops run in `Except Fault`.
-/

namespace FindInlets

/-! ## Data model -/

/-- The struct `Point` of the source: two `double` members. -/
structure Point (R : Type) where
  x : R
  y : R
deriving DecidableEq, Repr

/-- The struct `LineList` of the source, the element of `lineStrings` in
`findDanglePoints`. -/
structure LineList (R : Type) where
  sPoint : Point R
  ePoint : Point R
deriving DecidableEq, Repr

/-- The struct `LineList2` of the source, the element of `lineStrings` in
`findDanglePointsV2`. -/
structure LineList2 (R : Type) where
  sPoint : Point R
  ePoint : Point R
  fromPoint : Int
deriving DecidableEq, Repr

/-- The flattened OGR geometry types, the values of
`wkbFlatten(OGR_G_GetGeometryType(hGeometry))`. -/
inductive OGRwkbGeometryType where
  | wkbUnknown
  | wkbPoint
  | wkbLineString
  | wkbPolygon
  | wkbMultiPoint
  | wkbMultiLineString
  | wkbMultiPolygon
  | wkbGeometryCollection
deriving DecidableEq, Repr

/-- A geometry as the program sees it: its flattened type and its vertices
(`OGR_G_GetPointCount` is their number, `OGR_G_GetPoints` copies them out). -/
structure Geometry (R : Type) where
  flatType : OGRwkbGeometryType
  points : List (Point R)

/-- A feature as the program sees it: `OGR_F_GetGeometryRef` (`none` for
`NULL`) and `OGR_F_GetFieldAsInteger` as a function of the field index. -/
structure Feature (R : Type) where
  geometry : Option (Geometry R)
  fieldAsInteger : Int → Int

/-- A layer: `OGR_FD_GetFieldIndex` on its definition (by GDAL's contract -1
when no field has the name) and the features `OGR_L_GetNextFeature` yields. -/
structure Layer (R : Type) where
  getFieldIndex : String → Int
  features : List (Feature R)

/-- The ways a run ends other than by returning: the six `exit(1)` sites and
a read outside a vertex buffer (index read, number of elements allocated). -/
inductive Fault where
  | openFailed
  | layerFailed
  | driverUnavailable
  | createFileFailed
  | createLayerFailed
  | createFeatureFailed
  | outOfBoundsRead (index : Int) (size : Nat)
deriving DecidableEq, Repr

/-- Everything outside the program that a run depends on. `hDSFlow` is the
result of `GDALOpenEx` (`none` for `NULL`) holding the result of
`GDALDatasetGetLayer(hDSFlow, 0)`; the Booleans say whether
`GDALGetDriverByName`, `GDALCreate` and `GDALDatasetCreateLayer` return
non-`NULL`; `createFeatureOk i` says whether the `i`-th `OGR_L_CreateFeature`
returns `OGRERR_NONE`. -/
structure Env (R : Type) where
  hDSFlow : Option (Option (Layer R))
  driverAvailable : Bool
  createOk : Bool
  createLayerOk : Bool
  createFeatureOk : Nat → Bool

/-- The values the body of the reading loop of `findDanglePointsV2` holds for
one line feature: `tmpStart`, `tmpEnd`, `fromPoint`, `toPoint`. A flow network
is a list of these. -/
structure DirectedEdge (R : Type) where
  sPoint : Point R
  ePoint : Point R
  fromPoint : Int
  toPoint : Int
deriving DecidableEq, Repr

/-- The two containers the reading loop of `findDanglePointsV2` fills:
`vector<LineList2> lineStrings` and `unordered_set<long> toPoints` (a list in
which `find` is membership). -/
structure StateV2 (R : Type) where
  lineStrings : List (LineList2 R)
  toPoints : List Int

/-! ## Reading a vertex buffer -/

/-- The read `buf[i]` of a buffer allocated with `buf.length` elements: a
value inside the buffer, a fault outside it. -/
def readBuffer {R : Type} (buf : List R) (i : Int) : Except Fault R :=
  if 0 ≤ i then
    match buf[i.toNat]? with
    | some v => .ok v
    | none => .error (.outOfBoundsRead i buf.length)
  else .error (.outOfBoundsRead i buf.length)

/-- Lines 125-131 and 252-258: allocate the buffers for `pointCount` values,
let `OGR_G_GetPoints` fill them, read `tmpStart` at index 0 and `tmpEnd` at
index `pc - 1`. -/
def readEndpoints {R : Type} (hGeometry : Geometry R) :
    Except Fault (Point R × Point R) := do
  let xBuffer := hGeometry.points.map (fun p => p.x)
  let yBuffer := hGeometry.points.map (fun p => p.y)
  let pc : Int := hGeometry.points.length
  let x0 ← readBuffer xBuffer 0
  let y0 ← readBuffer yBuffer 0
  let x1 ← readBuffer xBuffer (pc - 1)
  let y1 ← readBuffer yBuffer (pc - 1)
  pure (⟨x0, y0⟩, ⟨x1, y1⟩)

/-! ## findDanglePointsV2 -/

/-- Lines 133-146: push the line and insert `toPoint` into `toPoints` unless
`find` already has it. -/
def pushLineV2 {R : Type} (st : StateV2 R) (tmpStart tmpEnd : Point R)
    (fromPoint toPoint : Int) : StateV2 R :=
  { lineStrings := st.lineStrings ++ [⟨tmpStart, tmpEnd, fromPoint⟩]
    toPoints := if st.toPoints.contains toPoint then st.toPoints
                else toPoint :: st.toPoints }

/-- Lines 113-150: the body of the reading loop of `findDanglePointsV2`. -/
def whileBodyV2 {R : Type} (indexFromNode indexToNode : Int) (st : StateV2 R)
    (hFeature : Feature R) : Except Fault (StateV2 R) :=
  let fromPoint := hFeature.fieldAsInteger indexFromNode
  let toPoint := hFeature.fieldAsInteger indexToNode
  match hFeature.geometry with
  | none => .ok st
  | some hGeometry =>
    if hGeometry.flatType = .wkbLineString then do
      let ends ← readEndpoints hGeometry
      pure (pushLineV2 st ends.1 ends.2 fromPoint toPoint)
    else .ok st

/-- Lines 112-151: the reading loop of `findDanglePointsV2`. -/
def readLoopV2 {R : Type} (indexFromNode indexToNode : Int) :
    StateV2 R → List (Feature R) → Except Fault (StateV2 R)
  | st, [] => .ok st
  | st, hFeature :: rest =>
    match whileBodyV2 indexFromNode indexToNode st hFeature with
    | .error e => .error e
    | .ok st1 => readLoopV2 indexFromNode indexToNode st1 rest

/-- Lines 184-186: the test `toPoints.find(line.fromPoint) == toPoints.end()`. -/
def notFound (toPoints : List Int) (fromPoint : Int) : Bool :=
  !toPoints.contains fromPoint

/-- Lines 181-188: the detection loop of `findDanglePointsV2`, `myinlets`
carried along. -/
def inletLoopV2 {R : Type} (toPoints : List Int) :
    List (LineList2 R) → List (Point R) → List (Point R)
  | [], myinlets => myinlets
  | line :: rest, myinlets =>
    if notFound toPoints line.fromPoint then
      inletLoopV2 toPoints rest (myinlets ++ [line.sPoint])
    else inletLoopV2 toPoints rest myinlets

/-- The vector `myinlets` of `findDanglePointsV2` after line 188. -/
def myinletsV2 {R : Type} (st : StateV2 R) : List (Point R) :=
  inletLoopV2 st.toPoints st.lineStrings []

/-- Lines 190-208 and 322-340: write each inlet, `exit(1)` at the first
`OGR_L_CreateFeature` that fails; the result is the points written. -/
def writeLoop {R : Type} (createFeatureOk : Nat → Bool) :
    List (Point R) → Nat → List (Point R) → Except Fault (List (Point R))
  | [], _, written => .ok written
  | a :: rest, i, written =>
    if createFeatureOk i then writeLoop createFeatureOk rest (i + 1) (written ++ [a])
    else .error .createFeatureFailed

/-- Lines 154-175 and 276-297: driver lookup, output file and output layer. -/
def openSink {R : Type} (env : Env R) : Except Fault Unit :=
  if !env.driverAvailable then .error .driverUnavailable
  else if !env.createOk then .error .createFileFailed
  else if !env.createLayerOk then .error .createLayerFailed
  else .ok ()

/-- The function `findDanglePointsV2` (lines 80-211): the points written to
the Dangles layer, or the fault that ended the run. -/
def findDanglePointsV2 {R : Type} (env : Env R) : Except Fault (List (Point R)) :=
  match env.hDSFlow with
  | none => .error .openFailed
  | some none => .error .layerFailed
  | some (some hLayerFlow) =>
    let indexFromNode := hLayerFlow.getFieldIndex "FromNode"
    let indexToNode := hLayerFlow.getFieldIndex "ToNode"
    match readLoopV2 indexFromNode indexToNode ⟨[], []⟩ hLayerFlow.features with
    | .error e => .error e
    | .ok st =>
      match openSink env with
      | .error e => .error e
      | .ok _ => writeLoop env.createFeatureOk (myinletsV2 st) 0 []

/-! ## findDanglePoints -/

/-- Line 312: `line.sPoint.x == line2.ePoint.x && line.sPoint.y == line2.ePoint.y`
for two points. -/
def coordEq {R : Type} (deq : R → R → Bool) (a b : Point R) : Bool :=
  deq a.x b.x && deq a.y b.y

/-- Lines 241-272: the body of the reading loop of `findDanglePoints`; the
stream order is field 12 and only order 1 is kept. -/
def whileBody {R : Type} (lineStrings : List (LineList R)) (hFeature : Feature R) :
    Except Fault (List (LineList R)) :=
  let streamOrder := hFeature.fieldAsInteger 12
  match hFeature.geometry with
  | none => .ok lineStrings
  | some hGeometry =>
    if hGeometry.flatType = .wkbLineString then do
      let ends ← readEndpoints hGeometry
      let tmpStreamOrder := streamOrder
      if tmpStreamOrder = 1 then pure (lineStrings ++ [⟨ends.1, ends.2⟩])
      else pure lineStrings
    else .ok lineStrings

/-- Lines 240-273: the reading loop of `findDanglePoints`. -/
def readLoop {R : Type} :
    List (LineList R) → List (Feature R) → Except Fault (List (LineList R))
  | lineStrings, [] => .ok lineStrings
  | lineStrings, hFeature :: rest =>
    match whileBody lineStrings hFeature with
    | .error e => .error e
    | .ok ls1 => readLoop ls1 rest

/-- Lines 307-316: the inner loop for the line at index `i`, entered at index
`j` with the lines from `j` on still to visit; the result is `addIt`. -/
def innerLoop {R : Type} (deq : R → R → Bool) (line : LineList R) (i : Nat) :
    List (LineList R) → Nat → Bool
  | [], _ => true
  | line2 :: rest, j =>
    if i = j then innerLoop deq line i rest (j + 1)
    else if coordEq deq line.sPoint line2.ePoint then false
    else innerLoop deq line i rest (j + 1)

/-- Lines 303-320: the outer loop, entered at index `i` with the lines from
`i` on still to visit, `myinlets` carried along. -/
def outerLoop {R : Type} (deq : R → R → Bool) (lineStrings : List (LineList R)) :
    List (LineList R) → Nat → List (Point R) → List (Point R)
  | [], _, myinlets => myinlets
  | line :: rest, i, myinlets =>
    if innerLoop deq line i lineStrings 0 then
      outerLoop deq lineStrings rest (i + 1) (myinlets ++ [line.sPoint])
    else outerLoop deq lineStrings rest (i + 1) myinlets

/-- The vector `myinlets` of `findDanglePoints` after line 320. -/
def myinlets {R : Type} (deq : R → R → Bool) (lineStrings : List (LineList R)) :
    List (Point R) :=
  outerLoop deq lineStrings lineStrings 0 []

/-- The function `findDanglePoints` (lines 213-343): the points written to
the Dangles layer, or the fault that ended the run. -/
def findDanglePoints {R : Type} (deq : R → R → Bool) (env : Env R) :
    Except Fault (List (Point R)) :=
  match env.hDSFlow with
  | none => .error .openFailed
  | some none => .error .layerFailed
  | some (some hLayerFlow) =>
    match readLoop [] hLayerFlow.features with
    | .error e => .error e
    | .ok lineStrings =>
      match openSink env with
      | .error e => .error e
      | .ok _ => writeLoop env.createFeatureOk (myinlets deq lineStrings) 0 []

/-! ## Flow networks -/

/-- The state the reading loop of `findDanglePointsV2` reaches by running
lines 133-146 once for every edge of a network, in order. -/
def networkV2 {R : Type} (es : List (DirectedEdge R)) : StateV2 R :=
  es.foldl (fun st e => pushLineV2 st e.sPoint e.ePoint e.fromPoint e.toPoint) ⟨[], []⟩

/-- The `LineList` that lines 262-265 push for an edge. -/
def DirectedEdge.toLineList {R : Type} (e : DirectedEdge R) : LineList R :=
  ⟨e.sPoint, e.ePoint⟩

/-- The `LineList2` that lines 133-138 push for an edge. -/
def DirectedEdge.toLineList2 {R : Type} (e : DirectedEdge R) : LineList2 R :=
  ⟨e.sPoint, e.ePoint, e.fromPoint⟩

/-! ## From a feature stream to the inlets -/

/-- The vector `myinlets` of `findDanglePoints` after line 320, for the
features of the layer. -/
def inletSetA {R : Type} (deq : R → R → Bool) (fs : List (Feature R)) :
    Except Fault (List (Point R)) :=
  match readLoop [] fs with
  | .error e => .error e
  | .ok lineStrings => .ok (myinlets deq lineStrings)

/-- The vector `myinlets` of `findDanglePointsV2` after line 188, for the two
field indices and the features of the layer. -/
def inletSetV2 {R : Type} (indexFromNode indexToNode : Int) (fs : List (Feature R)) :
    Except Fault (List (Point R)) :=
  match readLoopV2 indexFromNode indexToNode ⟨[], []⟩ fs with
  | .error e => .error e
  | .ok st => .ok (myinletsV2 st)

/-! ## Notions used by the statements about feature streams -/

/-- The first and the last vertex of a feature whose geometry is a line
string with at least one vertex; nothing for any other feature. -/
def segmentOf? {R : Type} (f : Feature R) : Option (Point R × Point R) :=
  match f.geometry with
  | none => none
  | some g =>
    if g.flatType = .wkbLineString then
      match g.points.head?, g.points.getLast? with
      | some a, some b => some (a, b)
      | _, _ => none
    else none

/-- The edge of a feature: its segment with the values of the two id fields. -/
def edgeOf? {R : Type} (indexFromNode indexToNode : Int) (f : Feature R) :
    Option (DirectedEdge R) :=
  (segmentOf? f).map
    (fun s => ⟨s.1, s.2, f.fieldAsInteger indexFromNode, f.fieldAsInteger indexToNode⟩)

/-- The edges of a feature stream, in feature order. -/
def edgesOf {R : Type} (indexFromNode indexToNode : Int) (fs : List (Feature R)) :
    List (DirectedEdge R) :=
  fs.filterMap (edgeOf? indexFromNode indexToNode)

/-- No feature of the stream is a line string with zero vertices. -/
def NoEmptyLine {R : Type} (fs : List (Feature R)) : Prop :=
  ∀ f ∈ fs, ∀ g, f.geometry = some g → g.flatType = .wkbLineString → g.points ≠ []

/-- The nodes of a network: the start of each edge with its id and the end of
each edge with its id. -/
def nodes {R : Type} (es : List (DirectedEdge R)) : List (Int × Point R) :=
  es.map (fun e => (e.fromPoint, e.sPoint)) ++ es.map (fun e => (e.toPoint, e.ePoint))

/-- No two edges share an end node id. -/
def UniqueEndIds {R : Type} (es : List (DirectedEdge R)) : Prop :=
  (es.map (fun e => e.toPoint)).Nodup

/-- Nodes with distinct ids never have coordinates that compare equal. -/
def NoCollision {R : Type} (deq : R → R → Bool) (es : List (DirectedEdge R)) : Prop :=
  ∀ n ∈ nodes es, ∀ m ∈ nodes es, n.1 ≠ m.1 → coordEq deq n.2 m.2 = false

/-- Nodes with the same id have coordinates that compare equal. -/
def OnePlacePerId {R : Type} (deq : R → R → Bool) (es : List (DirectedEdge R)) : Prop :=
  ∀ n ∈ nodes es, ∀ m ∈ nodes es, n.1 = m.1 → coordEq deq n.2 m.2 = true

/-- No edge starts and ends at the same node id. -/
def NoSelfLoop {R : Type} (es : List (DirectedEdge R)) : Prop :=
  ∀ e ∈ es, e.fromPoint ≠ e.toPoint

/-! ## Graph notions used by the statements -/

/-- The node-id graph of a network: one arc `fromPoint → toPoint` per edge. -/
def Arc {R : Type} (es : List (DirectedEdge R)) (a b : Int) : Prop :=
  ∃ e ∈ es, e.fromPoint = a ∧ e.toPoint = b

/-- A network whose node-id graph has no directed cycle: no node id reaches
itself along one or more arcs (a self-loop is a cycle of one arc). -/
def Acyclic {R : Type} (es : List (DirectedEdge R)) : Prop :=
  ∀ a : Int, ¬ Relation.TransGen (Arc es) a a

/-! ## Concrete inputs -/

/-- The `==` of the concrete inputs, whose coordinates are integers. -/
def intEq (a b : Int) : Bool := decide (a = b)

def ptA : Point Int := ⟨0, 0⟩

def ptB : Point Int := ⟨1, 1⟩

def ptC : Point Int := ⟨2, 2⟩

def ptD : Point Int := ⟨3, 0⟩

/-- The network `[(A→B, ids 1→2), (B→C, ids 2→3), (D→B, ids 4→2)]`. -/
def confluence : List (DirectedEdge Int) :=
  [⟨ptA, ptB, 1, 2⟩, ⟨ptB, ptC, 2, 3⟩, ⟨ptD, ptB, 4, 2⟩]

/-- The network `[(A→B), (B→C)]` without ids. -/
def chain : List (LineList Int) :=
  [⟨ptA, ptB⟩, ⟨ptB, ptC⟩]

/-- A closed loop of two edges, `A→B` with ids 1→2 and `B→A` with ids 2→1. -/
def ring : List (DirectedEdge Int) :=
  [⟨ptA, ptB, 1, 2⟩, ⟨ptB, ptA, 2, 1⟩]

/-- A zero-length edge at `A` whose two node ids are both 1. -/
def selfLoop : List (DirectedEdge Int) :=
  [⟨ptA, ptA, 1, 1⟩]

/-- A zero-length edge at `A` with ids 1→2, followed by `B→C` with ids 2→3. -/
def headwater : List (DirectedEdge Int) :=
  [⟨ptA, ptA, 1, 2⟩, ⟨ptB, ptC, 2, 3⟩]

/-- The network `[(A→B, ids 1→2), (B→C, ids 2→3)]`. -/
def reach : List (DirectedEdge Int) :=
  [⟨ptA, ptB, 1, 2⟩, ⟨ptB, ptC, 2, 3⟩]

/-- The fields of a feature of a layer whose field 0 is `FromNode`, field 1
is `ToNode` and field 12 is the stream order; any other index reads 0. -/
def fieldsOf (fromNode toNode order : Int) : Int → Int :=
  fun i => if i = 0 then fromNode else if i = 1 then toNode else if i = 12 then order else 0

/-- A line-string feature of such a layer. -/
def lineFeature (pts : List (Point Int)) (fromNode toNode order : Int) : Feature Int :=
  ⟨some ⟨.wkbLineString, pts⟩, fieldsOf fromNode toNode order⟩

/-- One line of a single vertex `A`, ids 1→1, stream order 1. -/
def loopStream : List (Feature Int) :=
  [lineFeature [ptA] 1 1 1]

/-- One line `A→B`, ids 1→2, stream order 2. -/
def orderTwoStream : List (Feature Int) :=
  [lineFeature [ptA, ptB] 1 2 2]

/-- Lines `A→B` (ids 1→2) and `C→D` (ids 2→3) of stream order 1: node id 2 is
at `B` for the first line and at `C` for the second. -/
def movedNodeStream : List (Feature Int) :=
  [lineFeature [ptA, ptB] 1 2 1, lineFeature [ptC, ptD] 2 3 1]

/-- Lines `A→B` (ids 1→2) and `B→D→C` (ids 2→3) of stream order 1. -/
def reachStream : List (Feature Int) :=
  [lineFeature [ptA, ptB] 1 2 1, lineFeature [ptB, ptD, ptC] 2 3 1]

/-- A stream of a line `A→B`, a feature without geometry, a point feature, a
line `B→D→C` of stream order 2 and a line of the single vertex `D`. -/
def mixedStream : List (Feature Int) :=
  [lineFeature [ptA, ptB] 1 2 1,
   ⟨none, fieldsOf 7 8 1⟩,
   ⟨some ⟨.wkbPoint, [ptC]⟩, fieldsOf 5 6 1⟩,
   lineFeature [ptB, ptD, ptC] 2 3 2,
   lineFeature [ptD] 4 2 1]

/-- A line string with zero vertices (`LINESTRING EMPTY`). -/
def emptyLine : Feature Int :=
  lineFeature [] 1 2 1

/-- A layer whose only field is `ToNode` (index 0): looking up `FromNode`
gives -1, and reading a field at an index the layer does not have gives 0.
Its lines are `A→B` ending at node 2 and `B→C` ending at node 3. -/
def noFromNodeLayer : Layer Int :=
  { getFieldIndex := fun name => if name = "ToNode" then 0 else -1
    features :=
      [⟨some ⟨.wkbLineString, [ptA, ptB]⟩, fun i => if i = 0 then 2 else 0⟩,
       ⟨some ⟨.wkbLineString, [ptB, ptC]⟩, fun i => if i = 0 then 3 else 0⟩] }

/-- A run on `noFromNodeLayer` in which every GDAL call succeeds. -/
def noFromNodeEnv : Env Int :=
  { hDSFlow := some (some noFromNodeLayer)
    driverAvailable := true
    createOk := true
    createLayerOk := true
    createFeatureOk := fun _ => true }

/-! ## Helper lemmas: the loops as filters -/

theorem inletLoopV2_eq {R : Type} (toPoints : List Int) (ls : List (LineList2 R))
    (acc : List (Point R)) :
    inletLoopV2 toPoints ls acc
      = acc ++ (ls.filter (fun l => notFound toPoints l.fromPoint)).map (fun l => l.sPoint) := by
  induction ls generalizing acc with
  | nil => simp [inletLoopV2]
  | cons l rest ih =>
    by_cases h : notFound toPoints l.fromPoint = true
    · simp [inletLoopV2, h, ih]
    · simp [inletLoopV2, h, ih]

theorem foldl_pushLineV2_lineStrings {R : Type} (es : List (DirectedEdge R)) (st : StateV2 R) :
    (es.foldl (fun st e => pushLineV2 st e.sPoint e.ePoint e.fromPoint e.toPoint) st).lineStrings
      = st.lineStrings ++ es.map DirectedEdge.toLineList2 := by
  induction es generalizing st with
  | nil => simp
  | cons e rest ih =>
    rw [List.foldl_cons, ih]
    simp [pushLineV2, DirectedEdge.toLineList2]

theorem mem_pushLineV2_toPoints {R : Type} (st : StateV2 R) (a b : Point R) (f t n : Int) :
    n ∈ (pushLineV2 st a b f t).toPoints ↔ n = t ∨ n ∈ st.toPoints := by
  by_cases h : t ∈ st.toPoints
  · have hc : st.toPoints.contains t = true := List.elem_iff.mpr h
    simp only [pushLineV2, hc, if_true]
    constructor
    · exact Or.inr
    · rintro (h1 | h1)
      · exact h1 ▸ h
      · exact h1
  · simp [pushLineV2, h]

theorem foldl_pushLineV2_toPoints {R : Type} (es : List (DirectedEdge R)) (st : StateV2 R)
    (n : Int) :
    n ∈ (es.foldl (fun st e => pushLineV2 st e.sPoint e.ePoint e.fromPoint e.toPoint) st).toPoints
      ↔ n ∈ st.toPoints ∨ ∃ e ∈ es, e.toPoint = n := by
  induction es generalizing st with
  | nil => simp
  | cons e rest ih =>
    rw [List.foldl_cons, ih, mem_pushLineV2_toPoints]
    simp only [List.mem_cons, exists_eq_or_imp]
    constructor
    · rintro ((h1 | h1) | h1)
      · exact Or.inr (Or.inl h1.symm)
      · exact Or.inl h1
      · exact Or.inr (Or.inr h1)
    · rintro (h1 | h1 | h1)
      · exact Or.inl (Or.inr h1)
      · exact Or.inl (Or.inl h1.symm)
      · exact Or.inr h1

theorem networkV2_lineStrings {R : Type} (es : List (DirectedEdge R)) :
    (networkV2 es).lineStrings = es.map DirectedEdge.toLineList2 := by
  simp [networkV2, foldl_pushLineV2_lineStrings]

theorem mem_networkV2_toPoints {R : Type} (es : List (DirectedEdge R)) (n : Int) :
    n ∈ (networkV2 es).toPoints ↔ ∃ e ∈ es, e.toPoint = n := by
  simp [networkV2, foldl_pushLineV2_toPoints]

theorem notFound_networkV2 {R : Type} (es : List (DirectedEdge R)) (n : Int) :
    notFound (networkV2 es).toPoints n = true ↔ ∀ e2 ∈ es, n ≠ e2.toPoint := by
  rw [notFound, Bool.not_eq_true', ← Bool.not_eq_true, List.elem_iff, mem_networkV2_toPoints]
  constructor
  · intro h e2 he2 hn
    exact h ⟨e2, he2, hn.symm⟩
  · rintro h ⟨e2, he2, hn⟩
    exact h e2 he2 hn.symm

theorem myinletsV2_networkV2 {R : Type} (es : List (DirectedEdge R)) :
    myinletsV2 (networkV2 es)
      = (es.filter (fun e => notFound (networkV2 es).toPoints e.fromPoint)).map
          (fun e => e.sPoint) := by
  simp only [myinletsV2, inletLoopV2_eq, networkV2_lineStrings, List.nil_append,
    List.filter_map, List.map_map]
  rfl

theorem innerLoop_iff {R : Type} (deq : R → R → Bool) (line : LineList R) (i : Nat)
    (rest : List (LineList R)) (j : Nat) :
    innerLoop deq line i rest j = true
      ↔ ∀ q ∈ rest.enumFrom j, q.1 ≠ i → coordEq deq line.sPoint q.2.ePoint = false := by
  induction rest generalizing j with
  | nil => simp [innerLoop]
  | cons line2 rest ih =>
    rw [List.enumFrom_cons, List.forall_mem_cons, ← ih (j + 1)]
    by_cases hij : i = j
    · rw [innerLoop, if_pos hij]
      constructor
      · intro h
        exact ⟨fun hne => absurd hij.symm hne, h⟩
      · intro h
        exact h.2
    · rw [innerLoop, if_neg hij]
      cases hc : coordEq deq line.sPoint line2.ePoint
      · constructor
        · intro h
          exact ⟨fun _ => rfl, by simpa using h⟩
        · intro h
          simpa using h.2
      · constructor
        · intro h
          simp at h
        · intro h
          exact absurd (h.1 (fun hji => hij hji.symm)) (by simp)

theorem outerLoop_eq {R : Type} (deq : R → R → Bool) (ls rest : List (LineList R)) (i : Nat)
    (acc : List (Point R)) :
    outerLoop deq ls rest i acc
      = acc ++ ((rest.enumFrom i).filter (fun p => innerLoop deq p.2 p.1 ls 0)).map
          (fun p => p.2.sPoint) := by
  induction rest generalizing i acc with
  | nil => simp [outerLoop]
  | cons line rest ih =>
    by_cases h : innerLoop deq line i ls 0 = true
    · simp [outerLoop, h, ih, List.enumFrom_cons]
    · simp [outerLoop, h, ih, List.enumFrom_cons]

theorem myinlets_eq {R : Type} (deq : R → R → Bool) (ls : List (LineList R)) :
    myinlets deq ls
      = (ls.enum.filter (fun p => innerLoop deq p.2 p.1 ls 0)).map (fun p => p.2.sPoint) := by
  simp [myinlets, outerLoop_eq, List.enum]

theorem coordEq_eq_false {R : Type} (deq : R → R → Bool) (a b : Point R) :
    coordEq deq a b = false ↔ ¬ (deq a.x b.x = true ∧ deq a.y b.y = true) := by
  simp [coordEq]

theorem exists_source_of_acyclic {R : Type} (es : List (DirectedEdge R)) (hne : es ≠ [])
    (hac : Acyclic es) : ∃ e ∈ es, ∀ e2 ∈ es, e.fromPoint ≠ e2.toPoint := by
  let r : Fin es.length → Fin es.length → Prop :=
    fun i j => (es.get i).toPoint = (es.get j).fromPoint
  have hlift : ∀ i j, Relation.TransGen r i j →
      Relation.TransGen (Arc es) (es.get i).fromPoint (es.get j).fromPoint := by
    intro i j h
    refine Relation.TransGen.lift (fun k => (es.get k).fromPoint) ?_ h
    intro a b hab
    exact ⟨es.get a, List.get_mem es a.1 a.2, rfl, hab⟩
  haveI : IsIrrefl (Fin es.length) (Relation.TransGen r) :=
    ⟨fun i h => hac _ (hlift i i h)⟩
  have hwf : WellFounded (Relation.TransGen r) :=
    Finite.wellFounded_of_trans_of_irrefl _
  have hpos : 0 < es.length := List.length_pos.mpr hne
  obtain ⟨i, -, hmin⟩ := hwf.has_min Set.univ ⟨⟨0, hpos⟩, Set.mem_univ _⟩
  refine ⟨es.get i, List.get_mem es i.1 i.2, ?_⟩
  intro e2 he2 heq
  obtain ⟨j, hj⟩ := List.mem_iff_get.mp he2
  apply hmin j (Set.mem_univ _)
  apply Relation.TransGen.single
  show (es.get j).toPoint = (es.get i).fromPoint
  rw [hj]
  exact heq.symm

/-! ## Helper lemmas: the reading loops -/

theorem readBuffer_of_getElem? {R : Type} (buf : List R) (n : Nat) (v : R)
    (h : buf[n]? = some v) : readBuffer buf (n : Int) = .ok v := by
  simp [readBuffer, h]

theorem readEndpoints_ok {R : Type} (g : Geometry R) (a b : Point R)
    (ha : g.points.head? = some a) (hb : g.points.getLast? = some b) :
    readEndpoints g = .ok (a, b) := by
  have hpos : 0 < g.points.length := by
    cases hp : g.points with
    | nil => simp [hp] at ha
    | cons _ _ => simp
  have hcast : ((g.points.length : Int) - 1) = ((g.points.length - 1 : Nat) : Int) := by
    omega
  have h0 : g.points[0]? = some a := by
    rw [← ha]
    cases g.points <;> simp
  have h1 : g.points[g.points.length - 1]? = some b := by
    rw [← hb, List.getLast?_eq_getElem?]
  have hx0 := readBuffer_of_getElem? (g.points.map (fun p => p.x)) 0 a.x (by simp [h0])
  have hy0 := readBuffer_of_getElem? (g.points.map (fun p => p.y)) 0 a.y (by simp [h0])
  have hx1 := readBuffer_of_getElem? (g.points.map (fun p => p.x)) (g.points.length - 1) b.x
    (by simp [h1])
  have hy1 := readBuffer_of_getElem? (g.points.map (fun p => p.y)) (g.points.length - 1) b.y
    (by simp [h1])
  simp only [Nat.cast_zero] at hx0 hy0
  simp only [readEndpoints, hcast, hx0, hy0, hx1, hy1, bind, Except.bind, pure, Except.pure]

theorem segmentOf?_of_line {R : Type} (f : Feature R) (g : Geometry R)
    (hg : f.geometry = some g) (hl : g.flatType = .wkbLineString) (hne : g.points ≠ []) :
    ∃ a b, g.points.head? = some a ∧ g.points.getLast? = some b
      ∧ segmentOf? f = some (a, b) := by
  cases hp : g.points with
  | nil => exact absurd hp hne
  | cons v rest =>
    refine ⟨v, (v :: rest).getLast (by simp), rfl, List.getLast?_eq_getLast _ _, ?_⟩
    simp only [segmentOf?, hg, hl, if_true, hp, List.head?_cons,
      List.getLast?_eq_getLast _ (List.cons_ne_nil v rest)]

theorem whileBodyV2_eq {R : Type} (iF iT : Int) (st : StateV2 R) (f : Feature R)
    (h : ∀ g, f.geometry = some g → g.flatType = .wkbLineString → g.points ≠ []) :
    whileBodyV2 iF iT st f
      = .ok (match edgeOf? iF iT f with
             | some e => pushLineV2 st e.sPoint e.ePoint e.fromPoint e.toPoint
             | none => st) := by
  cases hg : f.geometry with
  | none => simp [whileBodyV2, edgeOf?, segmentOf?, hg]
  | some g =>
    by_cases hl : g.flatType = .wkbLineString
    · obtain ⟨a, b, ha, hb, hseg⟩ := segmentOf?_of_line f g hg hl (h g hg hl)
      simp [whileBodyV2, edgeOf?, hseg, hg, hl, readEndpoints_ok g a b ha hb, bind, Except.bind,
        pure, Except.pure]
    · simp [whileBodyV2, edgeOf?, segmentOf?, hg, hl]

theorem readLoopV2_eq {R : Type} (iF iT : Int) (fs : List (Feature R)) (st : StateV2 R)
    (h : NoEmptyLine fs) :
    readLoopV2 iF iT st fs
      = .ok ((edgesOf iF iT fs).foldl
          (fun st e => pushLineV2 st e.sPoint e.ePoint e.fromPoint e.toPoint) st) := by
  induction fs generalizing st with
  | nil => simp [readLoopV2, edgesOf]
  | cons f rest ih =>
    have hf := whileBodyV2_eq iF iT st f (h f (List.mem_cons_self _ _))
    have hrest : NoEmptyLine rest := fun f2 hf2 => h f2 (List.mem_cons_of_mem _ hf2)
    rw [readLoopV2, hf]
    simp only
    rw [ih _ hrest]
    cases he : edgeOf? iF iT f <;> simp [edgesOf, List.filterMap_cons, he]

theorem whileBody_eq {R : Type} (ls : List (LineList R)) (f : Feature R)
    (h : ∀ g, f.geometry = some g → g.flatType = .wkbLineString → g.points ≠ []) :
    whileBody ls f
      = .ok (match segmentOf? f with
             | some s => if f.fieldAsInteger 12 = 1 then ls ++ [⟨s.1, s.2⟩] else ls
             | none => ls) := by
  cases hg : f.geometry with
  | none => simp [whileBody, segmentOf?, hg]
  | some g =>
    by_cases hl : g.flatType = .wkbLineString
    · obtain ⟨a, b, ha, hb, hseg⟩ := segmentOf?_of_line f g hg hl (h g hg hl)
      by_cases ho : f.fieldAsInteger 12 = 1
      · simp [whileBody, hseg, hg, hl, ho, readEndpoints_ok g a b ha hb, bind, Except.bind,
          pure, Except.pure]
      · simp [whileBody, hseg, hg, hl, ho, readEndpoints_ok g a b ha hb, bind, Except.bind,
          pure, Except.pure]
    · simp [whileBody, segmentOf?, hg, hl]

theorem readLoop_eq {R : Type} (fs : List (Feature R)) (ls : List (LineList R))
    (h : NoEmptyLine fs) :
    readLoop ls fs
      = .ok (ls ++ (fs.filter (fun f => decide (f.fieldAsInteger 12 = 1))).filterMap
          (fun f => (segmentOf? f).map (fun s => LineList.mk s.1 s.2))) := by
  induction fs generalizing ls with
  | nil => simp [readLoop]
  | cons f rest ih =>
    have hf := whileBody_eq ls f (h f (List.mem_cons_self _ _))
    have hrest : NoEmptyLine rest := fun f2 hf2 => h f2 (List.mem_cons_of_mem _ hf2)
    rw [readLoop, hf]
    simp only
    rw [ih _ hrest]
    by_cases ho : f.fieldAsInteger 12 = 1
    · cases hs : segmentOf? f <;> simp [List.filter_cons, List.filterMap_cons, ho, hs]
    · cases hs : segmentOf? f <;> simp [List.filter_cons, ho]

/-! ## Helper lemmas: a run whose GDAL calls all succeed -/

theorem writeLoop_ok {R : Type} (createFeatureOk : Nat → Bool) (h : ∀ i, createFeatureOk i = true)
    (l : List (Point R)) (i : Nat) (written : List (Point R)) :
    writeLoop createFeatureOk l i written = .ok (written ++ l) := by
  induction l generalizing i written with
  | nil => simp [writeLoop]
  | cons a rest ih => simp [writeLoop, h i, ih]

theorem findDanglePointsV2_eq_inletSetV2 {R : Type} (env : Env R) (hLayerFlow : Layer R)
    (hopen : env.hDSFlow = some (some hLayerFlow)) (hdrv : env.driverAvailable = true)
    (hcreate : env.createOk = true) (hlayer : env.createLayerOk = true)
    (hwrite : ∀ i, env.createFeatureOk i = true) :
    findDanglePointsV2 env
      = inletSetV2 (hLayerFlow.getFieldIndex "FromNode") (hLayerFlow.getFieldIndex "ToNode")
          hLayerFlow.features := by
  simp only [findDanglePointsV2, inletSetV2, hopen]
  cases readLoopV2 (hLayerFlow.getFieldIndex "FromNode") (hLayerFlow.getFieldIndex "ToNode")
      ⟨[], []⟩ hLayerFlow.features with
  | error e => rfl
  | ok st => simp [openSink, hdrv, hcreate, hlayer, writeLoop_ok _ hwrite]

theorem findDanglePoints_eq_inletSetA {R : Type} (deq : R → R → Bool) (env : Env R)
    (hLayerFlow : Layer R)
    (hopen : env.hDSFlow = some (some hLayerFlow)) (hdrv : env.driverAvailable = true)
    (hcreate : env.createOk = true) (hlayer : env.createLayerOk = true)
    (hwrite : ∀ i, env.createFeatureOk i = true) :
    findDanglePoints deq env = inletSetA deq hLayerFlow.features := by
  simp only [findDanglePoints, inletSetA, hopen]
  cases readLoop [] hLayerFlow.features with
  | error e => rfl
  | ok ls => simp [openSink, hdrv, hcreate, hlayer, writeLoop_ok _ hwrite]

/-! ## Helper lemmas: the two strategies on one network -/

theorem mem_enum_map_toLineList {R : Type} (es : List (DirectedEdge R))
    (q : Nat × LineList R) :
    q ∈ (es.map DirectedEdge.toLineList).enum
      ↔ ∃ p ∈ es.enum, q = (p.1, p.2.toLineList) := by
  rw [List.enum_map, List.mem_map]
  constructor
  · rintro ⟨p, hp, rfl⟩
    exact ⟨p, hp, rfl⟩
  · rintro ⟨p, hp, rfl⟩
    exact ⟨p, hp, rfl⟩

theorem innerLoop_toLineList_iff {R : Type} (deq : R → R → Bool) (es : List (DirectedEdge R))
    (e : DirectedEdge R) (i : Nat) :
    innerLoop deq e.toLineList i (es.map DirectedEdge.toLineList) 0 = true
      ↔ ∀ q ∈ es.enum, q.1 ≠ i → coordEq deq e.sPoint q.2.ePoint = false := by
  rw [innerLoop_iff]
  constructor
  · intro h q hq hne
    exact h (q.1, q.2.toLineList)
      ((mem_enum_map_toLineList es _).mpr ⟨q, hq, rfl⟩) hne
  · intro h q hq hne
    obtain ⟨p, hp, rfl⟩ := (mem_enum_map_toLineList es q).mp hq
    exact h p hp hne

theorem myinlets_map_toLineList {R : Type} (deq : R → R → Bool) (es : List (DirectedEdge R)) :
    myinlets deq (es.map DirectedEdge.toLineList)
      = (es.enum.filter
            (fun p => innerLoop deq p.2.toLineList p.1 (es.map DirectedEdge.toLineList) 0)).map
          (fun p => p.2.sPoint) := by
  rw [myinlets_eq, List.enum_map, List.filter_map, List.map_map]
  rfl

theorem filter_map_enum_snd {α β : Type} (l : List α) (p : α → Bool) (f : α → β) :
    (l.enum.filter (fun q => p q.2)).map (fun q => f q.2) = (l.filter p).map f := by
  conv_rhs => rw [← List.enum_map_snd l]
  rw [List.filter_map, List.map_map]
  rfl

theorem myinletsV2_enum {R : Type} (es : List (DirectedEdge R)) :
    myinletsV2 (networkV2 es)
      = (es.enum.filter (fun p => notFound (networkV2 es).toPoints p.2.fromPoint)).map
          (fun p => p.2.sPoint) := by
  rw [myinletsV2_networkV2]
  exact (filter_map_enum_snd es (fun e => notFound (networkV2 es).toPoints e.fromPoint)
    (fun e => e.sPoint)).symm

theorem mem_of_mem_enum {R : Type} (es : List (DirectedEdge R)) (p : Nat × DirectedEdge R)
    (hp : p ∈ es.enum) : p.2 ∈ es :=
  List.getElem?_mem ((List.mk_mem_enum_iff_getElem? (i := p.1) (x := p.2) (l := es)).mp hp)

theorem eq_of_mem_enum {R : Type} (es : List (DirectedEdge R)) (p q : Nat × DirectedEdge R)
    (hp : p ∈ es.enum) (hq : q ∈ es.enum) (h : p.1 = q.1) : p.2 = q.2 := by
  have h1 := (List.mk_mem_enum_iff_getElem? (i := p.1) (x := p.2) (l := es)).mp hp
  have h2 := (List.mk_mem_enum_iff_getElem? (i := q.1) (x := q.2) (l := es)).mp hq
  rw [h, h2] at h1
  exact (Option.some.inj h1).symm

theorem exists_mem_enum {R : Type} (es : List (DirectedEdge R)) (e : DirectedEdge R)
    (he : e ∈ es) : ∃ j, (j, e) ∈ es.enum := by
  obtain ⟨j, hj⟩ := List.mem_iff_get.mp he
  refine ⟨j.1, ?_⟩
  rw [List.mk_mem_enum_iff_getElem?, ← hj]
  simp

theorem start_mem_nodes {R : Type} (es : List (DirectedEdge R)) (e : DirectedEdge R)
    (he : e ∈ es) : (e.fromPoint, e.sPoint) ∈ nodes es := by
  simp only [nodes, List.mem_append, List.mem_map]
  exact Or.inl ⟨e, he, rfl⟩

theorem end_mem_nodes {R : Type} (es : List (DirectedEdge R)) (e : DirectedEdge R)
    (he : e ∈ es) : (e.toPoint, e.ePoint) ∈ nodes es := by
  simp only [nodes, List.mem_append, List.mem_map]
  exact Or.inr ⟨e, he, rfl⟩

theorem myinlets_eq_myinletsV2 {R : Type} (deq : R → R → Bool) (es : List (DirectedEdge R))
    (hcol : NoCollision deq es) (hone : OnePlacePerId deq es) (hself : NoSelfLoop es) :
    myinlets deq (es.map DirectedEdge.toLineList) = myinletsV2 (networkV2 es) := by
  rw [myinlets_map_toLineList, myinletsV2_enum]
  congr 1
  apply List.filter_congr
  intro p hp
  have hpe : p.2 ∈ es := mem_of_mem_enum es p hp
  rw [Bool.eq_iff_iff, innerLoop_toLineList_iff, notFound_networkV2]
  constructor
  · intro h e2 he2 heq
    obtain ⟨j, hj⟩ := exists_mem_enum es e2 he2
    by_cases hji : j = p.1
    · have h2 : e2 = p.2 := eq_of_mem_enum es (j, e2) p hj hp hji
      rw [h2] at heq
      exact hself p.2 hpe heq
    · have h1 := h (j, e2) hj hji
      have h2 := hone _ (start_mem_nodes es p.2 hpe) _ (end_mem_nodes es e2 he2) heq
      rw [h1] at h2
      cases h2
  · intro h q hq _
    have hqe : q.2 ∈ es := mem_of_mem_enum es q hq
    exact hcol _ (start_mem_nodes es p.2 hpe) _ (end_mem_nodes es q.2 hqe) (h q.2 hqe)

theorem readLoop_eq_edges {R : Type} (iF iT : Int) (fs : List (Feature R))
    (hline : NoEmptyLine fs)
    (hord : ∀ f ∈ fs, (segmentOf? f).isSome = true → f.fieldAsInteger 12 = 1) :
    readLoop [] fs = .ok ((edgesOf iF iT fs).map DirectedEdge.toLineList) := by
  rw [readLoop_eq fs [] hline, List.nil_append]
  congr 1
  induction fs with
  | nil => rfl
  | cons f rest ih =>
    have hrest : NoEmptyLine rest := fun f2 hf2 => hline f2 (List.mem_cons_of_mem _ hf2)
    have ih2 := ih hrest (fun f2 hf2 => hord f2 (List.mem_cons_of_mem _ hf2))
    have hf := hord f (List.mem_cons_self _ _)
    cases hs : segmentOf? f with
    | none =>
      by_cases ho : f.fieldAsInteger 12 = 1
      · simp [edgesOf, edgeOf?, List.filter_cons, List.filterMap_cons, ho, hs] at ih2 ⊢
        exact ih2
      · simp [edgesOf, edgeOf?, List.filter_cons, List.filterMap_cons, ho, hs] at ih2 ⊢
        exact ih2
    | some sg =>
      have ho : f.fieldAsInteger 12 = 1 := hf (by simp [hs])
      simp [edgesOf, edgeOf?, List.filter_cons, List.filterMap_cons, ho, hs,
        DirectedEdge.toLineList] at ih2 ⊢
      exact ih2

/-! ## The claims -/

/-- C1: in `findDanglePointsV2` the inlets of a flow network are the start
points of exactly those edges whose `fromPoint` differs from the `toPoint` of
every edge of the network, in edge order and one per qualifying edge (the
test of lines 184-186 succeeds for exactly those edges); the network
`[(A→B, 1→2), (B→C, 2→3), (D→B, 4→2)]` gives `[A, D]`. -/
theorem strategyB_inletSet {R : Type} (es : List (DirectedEdge R)) :
    myinletsV2 (networkV2 es)
        = (es.filter (fun e => decide (∀ e2 ∈ es, e.fromPoint ≠ e2.toPoint))).map
            (fun e => e.sPoint)
      ∧ (∀ e ∈ es, (notFound (networkV2 es).toPoints e.fromPoint = true
          ↔ ∀ e2 ∈ es, e.fromPoint ≠ e2.toPoint))
      ∧ myinletsV2 (networkV2 confluence) = [ptA, ptD] := by
  refine ⟨?_, fun e _ => notFound_networkV2 es e.fromPoint, by decide⟩
  rw [myinletsV2_networkV2]
  congr 1
  apply List.filter_congr
  intro e _
  rw [Bool.eq_iff_iff, notFound_networkV2]
  simp

/-- C2: in `findDanglePoints` the start point of the edge at position `i` is
appended (`addIt` stays true) exactly when no edge at another position has an
end point whose x and y both compare equal to those of that start point; the
inlets are these start points in edge order, one per qualifying edge;
`[(A→B), (B→C)]` gives `[A]`. -/
theorem strategyA_inletSet {R : Type} (deq : R → R → Bool) (ls : List (LineList R)) :
    myinlets deq ls
        = (ls.enum.filter (fun p => decide (∀ q ∈ ls.enum, q.1 ≠ p.1 →
              ¬ (deq p.2.sPoint.x q.2.ePoint.x = true ∧ deq p.2.sPoint.y q.2.ePoint.y = true)))).map
            (fun p => p.2.sPoint)
      ∧ (∀ p ∈ ls.enum, (innerLoop deq p.2 p.1 ls 0 = true
          ↔ ∀ q ∈ ls.enum, q.1 ≠ p.1 →
              ¬ (deq p.2.sPoint.x q.2.ePoint.x = true ∧ deq p.2.sPoint.y q.2.ePoint.y = true)))
      ∧ myinlets intEq chain = [ptA] := by
  have hflag : ∀ p : Nat × LineList R, (innerLoop deq p.2 p.1 ls 0 = true
      ↔ ∀ q ∈ ls.enum, q.1 ≠ p.1 →
          ¬ (deq p.2.sPoint.x q.2.ePoint.x = true ∧ deq p.2.sPoint.y q.2.ePoint.y = true)) := by
    intro p
    rw [innerLoop_iff, List.enum]
    simp only [coordEq_eq_false]
  refine ⟨?_, fun p _ => hflag p, by decide⟩
  rw [myinlets_eq]
  congr 1
  apply List.filter_congr
  intro p _
  rw [Bool.eq_iff_iff, hflag p]
  simp only [decide_eq_true_eq]

/-- C8: for a permutation `es2` of a network `es`, `findDanglePointsV2`
classifies every node id the same way in both (so an edge is a source in one
exactly when it is in the other), the inlets of `es2` are the sources of `es`
listed in the edge order of `es2`, and they are a permutation of the inlets
of `es`. -/
theorem strategyB_order_independent {R : Type} (es es2 : List (DirectedEdge R))
    (h : es2.Perm es) :
    (∀ e : DirectedEdge R, notFound (networkV2 es2).toPoints e.fromPoint
        = notFound (networkV2 es).toPoints e.fromPoint)
      ∧ myinletsV2 (networkV2 es2)
          = (es2.filter (fun e => notFound (networkV2 es).toPoints e.fromPoint)).map
              (fun e => e.sPoint)
      ∧ (myinletsV2 (networkV2 es2)).Perm (myinletsV2 (networkV2 es)) := by
  have hcls : ∀ n : Int, notFound (networkV2 es2).toPoints n
      = notFound (networkV2 es).toPoints n := by
    intro n
    rw [Bool.eq_iff_iff, notFound_networkV2, notFound_networkV2]
    constructor
    · intro h1 e2 he2
      exact h1 e2 (h.mem_iff.mpr he2)
    · intro h1 e2 he2
      exact h1 e2 (h.mem_iff.mp he2)
  have hout : myinletsV2 (networkV2 es2)
      = (es2.filter (fun e => notFound (networkV2 es).toPoints e.fromPoint)).map
          (fun e => e.sPoint) := by
    rw [myinletsV2_networkV2]
    congr 1
    apply List.filter_congr
    intro e _
    exact hcls e.fromPoint
  refine ⟨fun e => hcls e.fromPoint, hout, ?_⟩
  rw [hout, myinletsV2_networkV2]
  exact (h.filter _).map _

/-- Witness of C8 on the confluence network with its last edge moved to the
front. -/
theorem strategyB_order_independent_witness :
    ([⟨ptD, ptB, 4, 2⟩, ⟨ptA, ptB, 1, 2⟩, ⟨ptB, ptC, 2, 3⟩] : List (DirectedEdge Int)).Perm
        confluence
      ∧ myinletsV2 (networkV2 [⟨ptD, ptB, 4, 2⟩, ⟨ptA, ptB, 1, 2⟩, ⟨ptB, ptC, 2, 3⟩])
          = [ptD, ptA]
      ∧ (myinletsV2 (networkV2
            ([⟨ptD, ptB, 4, 2⟩, ⟨ptA, ptB, 1, 2⟩, ⟨ptB, ptC, 2, 3⟩] : List (DirectedEdge Int)))).Perm
          (myinletsV2 (networkV2 confluence)) :=
  have hp : ([⟨ptD, ptB, 4, 2⟩, ⟨ptA, ptB, 1, 2⟩, ⟨ptB, ptC, 2, 3⟩] :
      List (DirectedEdge Int)).Perm confluence := by decide
  ⟨hp, by decide, (strategyB_order_independent confluence _ hp).2.2⟩

/-- C9: when the `fromPoint` of every edge of a network equals the `toPoint`
of an edge at another position, `findDanglePointsV2` finds no inlet. -/
theorem strategyB_fully_cyclic {R : Type} (es : List (DirectedEdge R))
    (h : ∀ p ∈ es.enum, ∃ q ∈ es.enum, q.1 ≠ p.1 ∧ q.2.toPoint = p.2.fromPoint) :
    myinletsV2 (networkV2 es) = [] := by
  rw [myinletsV2_networkV2, List.map_eq_nil_iff, List.filter_eq_nil_iff]
  intro e he
  obtain ⟨i, hi⟩ := List.mem_iff_get.mp he
  have hp : (i.1, e) ∈ es.enum := by
    rw [List.mk_mem_enum_iff_getElem?]
    rw [← hi]
    simp
  obtain ⟨q, hq, -, hqe⟩ := h (i.1, e) hp
  rw [notFound_networkV2]
  intro hall
  have hq2 : q.2 ∈ es := by
    have := (List.mk_mem_enum_iff_getElem? (i := q.1) (x := q.2) (l := es)).mp hq
    exact List.getElem?_mem this
  exact hall q.2 hq2 hqe.symm

/-- Witness of C9 on the two-edge ring. -/
theorem strategyB_fully_cyclic_witness :
    (∀ p ∈ ring.enum, ∃ q ∈ ring.enum, q.1 ≠ p.1 ∧ q.2.toPoint = p.2.fromPoint)
      ∧ myinletsV2 (networkV2 ring) = [] :=
  ⟨by decide, strategyB_fully_cyclic ring (by decide)⟩

/-- C10: for a non-empty network whose node-id graph has no directed cycle
(self-loops included), `findDanglePointsV2` finds at least one inlet: some
edge has a `fromPoint` that `toPoints` does not hold. -/
theorem strategyB_acyclic_has_inlet {R : Type} (es : List (DirectedEdge R)) (hne : es ≠ [])
    (hac : Acyclic es) :
    myinletsV2 (networkV2 es) ≠ []
      ∧ ∃ e ∈ es, notFound (networkV2 es).toPoints e.fromPoint = true := by
  obtain ⟨e, he, hsrc⟩ := exists_source_of_acyclic es hne hac
  have hnf : notFound (networkV2 es).toPoints e.fromPoint = true :=
    (notFound_networkV2 es e.fromPoint).mpr hsrc
  refine ⟨?_, e, he, hnf⟩
  rw [myinletsV2_networkV2]
  intro hnil
  rw [List.map_eq_nil_iff, List.filter_eq_nil_iff] at hnil
  exact hnil e he hnf

/-- Witness of C10 on the chain `1→2→3`, whose arcs all go to a larger id. -/
theorem strategyB_acyclic_has_inlet_witness :
    reach ≠ [] ∧ Acyclic reach ∧ myinletsV2 (networkV2 reach) ≠ [] :=
  have hne : reach ≠ [] := by decide
  have hac : Acyclic reach := by
    have harc : ∀ a b : Int, Arc reach a b → a < b := by
      rintro a b ⟨e, he, rfl, rfl⟩
      simp only [reach, List.mem_cons, List.mem_singleton, List.not_mem_nil, or_false] at he
      rcases he with rfl | rfl <;> decide
    have htrans : ∀ a b : Int, Relation.TransGen (Arc reach) a b → a < b := by
      intro a b h
      induction h with
      | single h1 => exact harc _ _ h1
      | tail _ h2 ih => exact lt_trans ih (harc _ _ h2)
    intro a h
    exact lt_irrefl a (htrans a a h)
  ⟨hne, hac, (strategyB_acyclic_has_inlet reach hne hac).1⟩

/-- C3 as stated fails for `findDanglePointsV2`: the only edge of `selfLoop`
has no edge at another position ending at its start node, yet its start point
is not emitted, because its own `toPoint` is in `toPoints`. -/
theorem no_self_masking_counterexample :
    (0, (⟨ptA, ptA, 1, 1⟩ : DirectedEdge Int)) ∈ selfLoop.enum
      ∧ (∀ q ∈ selfLoop.enum, q.1 ≠ 0 → q.2.toPoint ≠ (1 : Int))
      ∧ myinletsV2 (networkV2 selfLoop) = []
      ∧ myinlets intEq (selfLoop.map DirectedEdge.toLineList) = [ptA] := by
  decide

/-- C3 (amended): for the edge `e` at position `i` of a network,
`findDanglePoints` emits `e.sPoint` when no edge at another position has an
end point comparing equal to `e.sPoint`, whatever the end of `e` itself is;
`findDanglePointsV2` emits `e.sPoint` when no edge at another position has a
`toPoint` equal to `e.fromPoint` and the `toPoint` of `e` itself differs from
`e.fromPoint`, and does not classify `e` as a source when its own `toPoint`
equals its `fromPoint`. -/
theorem no_self_masking {R : Type} (deq : R → R → Bool) (es : List (DirectedEdge R))
    (i : Nat) (e : DirectedEdge R) (he : (i, e) ∈ es.enum) :
    ((∀ q ∈ es.enum, q.1 ≠ i →
          ¬ (deq e.sPoint.x q.2.ePoint.x = true ∧ deq e.sPoint.y q.2.ePoint.y = true)) →
        innerLoop deq e.toLineList i (es.map DirectedEdge.toLineList) 0 = true
          ∧ e.sPoint ∈ myinlets deq (es.map DirectedEdge.toLineList))
      ∧ ((∀ q ∈ es.enum, q.1 ≠ i → q.2.toPoint ≠ e.fromPoint) → e.toPoint ≠ e.fromPoint →
        notFound (networkV2 es).toPoints e.fromPoint = true
          ∧ e.sPoint ∈ myinletsV2 (networkV2 es))
      ∧ (e.toPoint = e.fromPoint → notFound (networkV2 es).toPoints e.fromPoint = false) := by
  have hmem : e ∈ es := mem_of_mem_enum es (i, e) he
  refine ⟨?_, ?_, ?_⟩
  · intro h
    have hflag : innerLoop deq e.toLineList i (es.map DirectedEdge.toLineList) 0 = true := by
      rw [innerLoop_toLineList_iff]
      intro q hq hne
      exact (coordEq_eq_false deq _ _).mpr (h q hq hne)
    refine ⟨hflag, ?_⟩
    rw [myinlets_map_toLineList, List.mem_map]
    exact ⟨(i, e), List.mem_filter.mpr ⟨he, hflag⟩, rfl⟩
  · intro h hown
    have hflag : notFound (networkV2 es).toPoints e.fromPoint = true := by
      rw [notFound_networkV2]
      intro e2 he2 heq
      obtain ⟨j, hj⟩ := exists_mem_enum es e2 he2
      by_cases hji : j = i
      · have h2 : e2 = e := eq_of_mem_enum es (j, e2) (i, e) hj he hji
        rw [h2] at heq
        exact hown heq.symm
      · exact h (j, e2) hj hji heq.symm
    refine ⟨hflag, ?_⟩
    rw [myinletsV2_networkV2, List.mem_map]
    exact ⟨e, List.mem_filter.mpr ⟨hmem, hflag⟩, rfl⟩
  · intro hown
    rw [← Bool.not_eq_true, notFound_networkV2]
    intro h
    exact h e hmem hown.symm

/-- Witness of C3 (amended) on the zero-length first edge of `headwater`. -/
theorem no_self_masking_witness :
    (0, (⟨ptA, ptA, 1, 2⟩ : DirectedEdge Int)) ∈ headwater.enum
      ∧ ptA ∈ myinlets intEq (headwater.map DirectedEdge.toLineList)
      ∧ ptA ∈ myinletsV2 (networkV2 headwater) :=
  have he : (0, (⟨ptA, ptA, 1, 2⟩ : DirectedEdge Int)) ∈ headwater.enum := by decide
  have h := no_self_masking intEq headwater 0 ⟨ptA, ptA, 1, 2⟩ he
  ⟨he, (h.1 (by decide)).2, (h.2.1 (by decide) (by decide)).2⟩

/-- C4 as stated fails in three ways, each on a stream whose edges have unique
end node ids and no equal coordinates across distinct ids: a one-vertex line
with ids 1→1 is an inlet for `findDanglePoints` only; a line of stream order 2
is an inlet for `findDanglePointsV2` only; and when node id 2 has two places,
the line starting at the second place is an inlet for `findDanglePoints` only. -/
theorem strategy_equivalence_counterexample :
    (UniqueEndIds (edgesOf 0 1 loopStream) ∧ NoCollision intEq (edgesOf 0 1 loopStream)
        ∧ inletSetA intEq loopStream = .ok [ptA] ∧ inletSetV2 0 1 loopStream = .ok []
        ∧ ¬ ([ptA] : List (Point Int)).Perm [])
      ∧ (UniqueEndIds (edgesOf 0 1 orderTwoStream)
        ∧ NoCollision intEq (edgesOf 0 1 orderTwoStream)
        ∧ inletSetA intEq orderTwoStream = .ok [] ∧ inletSetV2 0 1 orderTwoStream = .ok [ptA]
        ∧ ¬ ([] : List (Point Int)).Perm [ptA])
      ∧ (UniqueEndIds (edgesOf 0 1 movedNodeStream)
        ∧ NoCollision intEq (edgesOf 0 1 movedNodeStream)
        ∧ inletSetA intEq movedNodeStream = .ok [ptA, ptC]
        ∧ inletSetV2 0 1 movedNodeStream = .ok [ptA]
        ∧ ¬ ([ptA, ptC] : List (Point Int)).Perm [ptA]) := by
  refine ⟨⟨?_, ?_, rfl, rfl, by decide⟩, ⟨?_, ?_, rfl, rfl, by decide⟩,
    ⟨?_, ?_, rfl, rfl, by decide⟩⟩
  all_goals first
    | (unfold UniqueEndIds; decide)
    | (unfold NoCollision; decide)

/-- C4 (amended): for a feature stream without zero-vertex lines in which
every line feature has stream order 1 (field 12) and whose edges have unique
end node ids, no coordinates comparing equal across distinct node ids,
coordinates comparing equal for equal node ids, and no edge from a node id to
itself, `findDanglePoints` and `findDanglePointsV2` compute the same inlets:
equal as multisets, and in fact in the same order. -/
theorem strategy_equivalence {R : Type} (deq : R → R → Bool) (indexFromNode indexToNode : Int)
    (fs : List (Feature R)) (hline : NoEmptyLine fs)
    (hord : ∀ f ∈ fs, (segmentOf? f).isSome = true → f.fieldAsInteger 12 = 1)
    (_huniq : UniqueEndIds (edgesOf indexFromNode indexToNode fs))
    (hcol : NoCollision deq (edgesOf indexFromNode indexToNode fs))
    (hone : OnePlacePerId deq (edgesOf indexFromNode indexToNode fs))
    (hself : NoSelfLoop (edgesOf indexFromNode indexToNode fs)) :
    ∃ a b, inletSetA deq fs = .ok a ∧ inletSetV2 indexFromNode indexToNode fs = .ok b
      ∧ a.Perm b ∧ a = b := by
  have hA := readLoop_eq_edges indexFromNode indexToNode fs hline hord
  have hB := readLoopV2_eq indexFromNode indexToNode fs ⟨[], []⟩ hline
  have hnet := myinlets_eq_myinletsV2 deq (edgesOf indexFromNode indexToNode fs) hcol hone hself
  refine ⟨myinlets deq ((edgesOf indexFromNode indexToNode fs).map DirectedEdge.toLineList),
    myinletsV2 (networkV2 (edgesOf indexFromNode indexToNode fs)), ?_, ?_, ?_, hnet⟩
  · simp only [inletSetA, hA]
  · simp only [inletSetV2, hB]
    rfl
  · rw [hnet]

/-- Witness of C4 (amended) on the stream `A→B` (1→2), `B→D→C` (2→3). -/
theorem strategy_equivalence_witness :
    NoEmptyLine reachStream
      ∧ UniqueEndIds (edgesOf 0 1 reachStream)
      ∧ NoCollision intEq (edgesOf 0 1 reachStream)
      ∧ OnePlacePerId intEq (edgesOf 0 1 reachStream)
      ∧ NoSelfLoop (edgesOf 0 1 reachStream)
      ∧ ∃ a b, inletSetA intEq reachStream = .ok a ∧ inletSetV2 0 1 reachStream = .ok b
          ∧ a.Perm b ∧ a = b :=
  have hline : NoEmptyLine reachStream := by
    intro f hf g hg _
    simp only [reachStream, List.mem_cons, List.mem_singleton, List.not_mem_nil, or_false] at hf
    rcases hf with rfl | rfl
    · simp only [lineFeature, Option.some.injEq] at hg
      subst hg
      simp
    · simp only [lineFeature, Option.some.injEq] at hg
      subst hg
      simp
  have huniq : UniqueEndIds (edgesOf 0 1 reachStream) := by unfold UniqueEndIds; decide
  have hcol : NoCollision intEq (edgesOf 0 1 reachStream) := by unfold NoCollision; decide
  have hone : OnePlacePerId intEq (edgesOf 0 1 reachStream) := by unfold OnePlacePerId; decide
  have hself : NoSelfLoop (edgesOf 0 1 reachStream) := by unfold NoSelfLoop; decide
  ⟨hline, huniq, hcol, hone, hself,
    strategy_equivalence intEq 0 1 reachStream hline (by decide) huniq hcol hone hself⟩

/-- C5 at a failing input: on a layer without a `FromNode` field the lookup
gives -1, and `findDanglePointsV2` still runs to the end: it reads every
`fromPoint` at index -1 (here 0) and writes both `A` and `B` as inlets of the
chain `A→B→C`. -/
theorem missing_field_run :
    noFromNodeLayer.getFieldIndex "FromNode" = -1
      ∧ findDanglePointsV2 noFromNodeEnv = .ok [ptA, ptB] := by
  refine ⟨by decide, ?_⟩
  rfl

/-- C6 at a failing input: for a line string with zero vertices the body of
either reading loop reads index 0 of a buffer of zero elements, and neither
loop goes on to the next feature. -/
theorem zero_vertex_line_read :
    whileBodyV2 0 1 ⟨[], []⟩ emptyLine = .error (.outOfBoundsRead 0 0)
      ∧ whileBody [] emptyLine = .error (.outOfBoundsRead 0 0)
      ∧ readLoopV2 0 1 ⟨[], []⟩ [emptyLine, lineFeature [ptA, ptB] 1 2 1]
          = .error (.outOfBoundsRead 0 0)
      ∧ readLoop [] [emptyLine, lineFeature [ptA, ptB] 1 2 1]
          = .error (.outOfBoundsRead 0 0) :=
  ⟨rfl, rfl, rfl, rfl⟩

/-- C7 as stated fails for `findDanglePoints`: the stream of one line `A→B`
of stream order 2 has one line string with two vertices, yet the network
built is empty. -/
theorem segment_extraction_counterexample :
    orderTwoStream.filterMap (fun f => (segmentOf? f).map (fun s => LineList.mk s.1 s.2))
        = [⟨ptA, ptB⟩]
      ∧ readLoop [] orderTwoStream = .ok [] :=
  ⟨rfl, rfl⟩

/-- C7 (amended): for a feature stream without zero-vertex lines, the network
of `findDanglePointsV2` is, in feature order, one line per line-string
feature, from its first to its last vertex, and the network of
`findDanglePoints` is the same restricted to the features whose field 12
reads 1; features without geometry or with another geometry type give no
line. -/
theorem segment_extraction {R : Type} (indexFromNode indexToNode : Int)
    (fs : List (Feature R)) (h : NoEmptyLine fs) :
    (∃ st, readLoopV2 indexFromNode indexToNode ⟨[], []⟩ fs = .ok st
        ∧ st.lineStrings = fs.filterMap (fun f => (segmentOf? f).map
            (fun s => LineList2.mk s.1 s.2 (f.fieldAsInteger indexFromNode))))
      ∧ readLoop [] fs
          = .ok ((fs.filter (fun f => decide (f.fieldAsInteger 12 = 1))).filterMap
              (fun f => (segmentOf? f).map (fun s => LineList.mk s.1 s.2))) := by
  refine ⟨⟨_, readLoopV2_eq indexFromNode indexToNode fs ⟨[], []⟩ h, ?_⟩, ?_⟩
  · rw [foldl_pushLineV2_lineStrings, List.nil_append, edgesOf, List.map_filterMap]
    congr 1
    funext f
    cases hs : segmentOf? f <;> simp [edgeOf?, hs, DirectedEdge.toLineList2]
  · rw [readLoop_eq fs [] h, List.nil_append]

/-- Witness of C7 (amended) on `mixedStream`: three lines for
`findDanglePointsV2`, the two of stream order 1 for `findDanglePoints`. -/
theorem segment_extraction_witness :
    NoEmptyLine mixedStream
      ∧ (∃ st, readLoopV2 0 1 ⟨[], []⟩ mixedStream = .ok st
          ∧ st.lineStrings = [⟨ptA, ptB, 1⟩, ⟨ptB, ptC, 2⟩, ⟨ptD, ptD, 4⟩])
      ∧ readLoop [] mixedStream = .ok [⟨ptA, ptB⟩, ⟨ptD, ptD⟩] :=
  have hline : NoEmptyLine mixedStream := by
    intro f hf g hg hl
    simp only [mixedStream, List.mem_cons, List.mem_singleton, List.not_mem_nil, or_false] at hf
    rcases hf with rfl | rfl | rfl | rfl | rfl
    · simp only [lineFeature, Option.some.injEq] at hg
      subst hg
      simp
    · simp at hg
    · simp only [Option.some.injEq] at hg
      subst hg
      simp at hl
    · simp only [lineFeature, Option.some.injEq] at hg
      subst hg
      simp
    · simp only [lineFeature, Option.some.injEq] at hg
      subst hg
      simp
  ⟨hline, (segment_extraction 0 1 mixedStream hline).1, (segment_extraction 0 1 mixedStream hline).2⟩

end FindInlets
